import Mathlib

/-!
# Verification development for the hetida-designer workflow core

This file embeds, in Lean 4, the parts of the repository that the frozen
claims are about:

* the URL path encoding of `hetdesrun/adapters/sql_reader/utils.py`
  (`to_url_representation` / `from_url_representation`), translated directly
  from the Python source; and
* the workflow-core (graph model, nesting resolver, lifecycle state machine,
  code generator, transformation create/update/delete).  The code of that
  core is not part of the source tree given here (only its test file
  `tests/test_backend_transformation_router.py` is), so those definitions are
  modelled from the specification, as indicated in their doc comments.

Machine integers do not occur; ids are `Nat`, strings are `String`.
-/

deriving instance DecidableEq for Except

namespace HetidaSpec

/-! ## Python `str.replace` on character lists

`pyReplace p ps rep l` is Python's `l.replace(p :: ps, rep)`:
a single left-to-right scan that replaces each non-overlapping occurrence of
the (non-empty) pattern `p :: ps` by `rep` and never rescans the replacement
text.  The pattern is passed with its first character separated so that it is
non-empty by construction.
-/
def pyReplace (p : Char) (ps rep : List Char) : List Char → List Char
  | [] => []
  | c :: cs =>
    if (p :: ps) <+: (c :: cs) then
      rep ++ pyReplace p ps rep (cs.drop ps.length)
    else
      c :: pyReplace p ps rep cs
termination_by l => l.length
decreasing_by
  · simp only [List.length_cons, List.length_drop]
    omega
  · simp

/-- Source: `utils.py`, `to_url_representation`:
`return path.replace("_", "-_-").replace("/", "__")`. -/
def to_url_representation (path : String) : String :=
  String.mk (pyReplace '/' [] ['_', '_']
    (pyReplace '_' [] ['-', '_', '-'] path.toList))

/-- Source: `utils.py`, `from_url_representation`:
`return url_rep.replace("__", "/").replace("-_-", "_")`. -/
def from_url_representation (url_rep : String) : String :=
  String.mk (pyReplace '-' ['_', '-'] ['_']
    (pyReplace '_' ['_'] ['/'] url_rep.toList))

/-! Abbreviations for the four replacement passes used by the two functions. -/
/-- First pass of `to_url_representation`: replace `"_"` by `"-_-"`. -/
def encUnderscore : List Char → List Char := pyReplace '_' [] ['-', '_', '-']

/-- Second pass of `to_url_representation`: replace `"/"` by `"__"`. -/
def encSlash : List Char → List Char := pyReplace '/' [] ['_', '_']

/-- First pass of `from_url_representation`: replace `"__"` by `"/"`. -/
def decSlash : List Char → List Char := pyReplace '_' ['_'] ['/']

/-- Second pass of `from_url_representation`: replace `"-_-"` by `"_"`. -/
def decUnderscore : List Char → List Char := pyReplace '-' ['_', '-'] ['_']

/-- The per-character encoding block realized by the composition
`encSlash ∘ encUnderscore`. -/
def encBlock (c : Char) : List Char :=
  if c = '_' then ['-', '_', '-'] else if c = '/' then ['_', '_'] else [c]

/-- The per-character shape left after the first decoding pass `decSlash`
has run over an encoded string. -/
def midBlock (c : Char) : List Char :=
  if c = '_' then ['-', '_', '-'] else [c]

/-! ## Workflow-core data model

Modelled from the spec: the workflow core (Graph Model, Nesting Resolver,
Lifecycle State Machine, Code Generator, transformation router) is not part
of the given source tree — only its test file is — so the definitions below
follow the spec's §3–§4 and §6 word by word.  Ids are `Nat`, timestamps are
`Nat`, positions are pairs of integers kept only as presentation metadata.
-/
/-- Modelled from the spec: connector data types; `ANY` is the type a
destination may be "explicitly marked" with to accept any source type. -/
inductive DataType where
  | INT | FLOAT | STRING | BOOL | SERIES | ANY
deriving DecidableEq, Repr

/-- Modelled from the spec: x/y position metadata, "for presentation only —
no semantic weight". -/
structure Position where
  x : Int
  y : Int
deriving DecidableEq, Repr

/-- Modelled from the spec: a named, typed connector of the io interface of
a revision (no position at this level). -/
structure IOConnector where
  id : Nat
  name : String
  data_type : DataType
deriving DecidableEq, Repr

/-- Modelled from the spec: a named, typed connector inside a workflow
graph, carrying position metadata. -/
structure WfConnector where
  id : Nat
  name : String
  data_type : DataType
  position : Position
deriving DecidableEq, Repr

/-- Modelled from the spec: an operator — a placed reference, inside a
workflow graph, to another transformation revision (by `transformation_id`),
with its own snapshotted copy of that revision's connector signature. -/
structure Operator where
  id : Nat
  name : String
  transformation_id : Nat
  inputs : List WfConnector
  outputs : List WfConnector
  position : Position
deriving DecidableEq, Repr

/-- Modelled from the spec: one end of a link: a workflow io connector
(`operator = none`) or a connector of an operator (`operator = some opId`). -/
structure Vertex where
  operator : Option Nat
  connector : WfConnector
deriving DecidableEq, Repr

/-- Modelled from the spec: a directed edge connecting exactly one source
connector to exactly one destination connector. -/
structure Link where
  id : Nat
  source : Vertex
  dest : Vertex
deriving DecidableEq, Repr

/-- Modelled from the spec: a fixed value bound directly to a destination
connector, substituting for a wired input. -/
structure Constant where
  operator : Option Nat
  connector_id : Nat
  value : String
deriving DecidableEq, Repr

/-- Modelled from the spec: a Workflow's content — its internal graph. -/
structure Graph where
  inputs : List WfConnector
  outputs : List WfConnector
  constants : List Constant
  operators : List Operator
  links : List Link
deriving DecidableEq, Repr

/-- Modelled from the spec: the tagged variant over Component/Workflow
content (§9: "model as a tagged variant"). -/
inductive RevContent where
  | component (code : String)
  | workflow (graph : Graph)
deriving DecidableEq, Repr

/-- Modelled from the spec: revision lifecycle states. -/
inductive RevState where
  | DRAFT | RELEASED | DISABLED
deriving DecidableEq, Repr

/-- Modelled from the spec: the io interface exposed to callers. -/
structure IOInterface where
  inputs : List IOConnector
  outputs : List IOConnector
deriving DecidableEq, Repr

/-- Modelled from the spec: the central entity, a transformation revision. -/
structure TransformationRevision where
  id : Nat
  revision_group_id : Nat
  name : String
  description : String
  category : String
  documentation : String
  version_tag : String
  io_interface : IOInterface
  state : RevState
  released_timestamp : Option Nat
  disabled_timestamp : Option Nat
  content : RevContent
deriving DecidableEq, Repr

/-- Modelled from the spec: a derived nesting row
`(workflow_revision_id, descendant_revision_id, via_operator_path, depth)`. -/
structure NestingRow where
  workflow_revision_id : Nat
  descendant_revision_id : Nat
  via_operator_path : List Nat
  depth : Nat
deriving DecidableEq, Repr

/-- Modelled from the spec: the revision store owns persisted revisions and
nesting rows (§3 Ownership, §6 store contract). -/
structure Store where
  revisions : List TransformationRevision
  nestings : List NestingRow
deriving DecidableEq, Repr

/-- Modelled from the spec: `get(id)` of the store contract — lookup of a
revision by its unique id. -/
def lookupRev (revs : List TransformationRevision) (i : Nat) :
    Option TransformationRevision :=
  revs.find? (fun r => r.id == i)


/-! ## Graph Model: validation (§4.1)

The four §3 invariants, each as a decidable boolean check used by `validate`
and as a declarative proposition used to state claim C1.
-/
/-- The key identifying a destination connector: the operator owning it
(`none` for a workflow output) and the connector id. -/
def destKey (v : Vertex) : Option Nat × Nat :=
  (v.operator, v.connector.id)

/-- Number of links of `g` arriving at the destination key `d`. -/
def incomingCount (g : Graph) (d : Option Nat × Nat) : Nat :=
  g.links.countP (fun l => decide (destKey l.dest = d))

/-- Whether a constant of `g` is bound to the destination key `d`. -/
def constantBound (g : Graph) (d : Option Nat × Nat) : Bool :=
  g.constants.any (fun k => decide ((k.operator, k.connector_id) = d))

/-- Boolean check: no destination connector has more than one incoming
link (fan-in forbidden). -/
def fanInOkB (g : Graph) : Bool :=
  g.links.all (fun l => decide (incomingCount g (destKey l.dest) ≤ 1))

/-- Boolean check: every non-constant input connector of every operator has
exactly one incoming link. -/
def requiredOpInputsOkB (g : Graph) : Bool :=
  g.operators.all (fun op =>
    op.inputs.all (fun c =>
      constantBound g (some op.id, c.id) ||
        decide (incomingCount g (some op.id, c.id) = 1)))

/-- Boolean check: every non-constant workflow output has exactly one
incoming link. -/
def requiredOutputsOkB (g : Graph) : Bool :=
  g.outputs.all (fun c =>
    constantBound g (none, c.id) ||
      decide (incomingCount g (none, c.id) = 1))

/-- Boolean check: each link's source and destination connectors have
identical data types, or the destination is explicitly marked `ANY`. -/
def wellTypedB (g : Graph) : Bool :=
  g.links.all (fun l =>
    decide (l.source.connector.data_type = l.dest.connector.data_type) ||
      decide (l.dest.connector.data_type = DataType.ANY))

/-- Boolean check: every `transformation_id` referenced by an operator
resolves to an existing revision. -/
def resolvableB (revs : List TransformationRevision) (g : Graph) : Bool :=
  g.operators.all (fun op => (lookupRev revs op.transformation_id).isSome)

/-- The operator-collapsed directed graph: one edge `(a, b)` for each link
from an output connector of operator `a` to an input connector of
operator `b`. -/
def collapsedEdges (g : Graph) : List (Nat × Nat) :=
  g.links.filterMap (fun l =>
    match l.source.operator, l.dest.operator with
    | some a, some b => some (a, b)
    | _, _ => none)

/-- `pathNB es n a b`: there is a directed walk of exactly `n` edges of `es`
from `a` to `b` (boolean version). -/
def pathNB (es : List (Nat × Nat)) : Nat → Nat → Nat → Bool
  | 0, a, b => a == b
  | n + 1, a, b => es.any (fun e => e.1 == a && pathNB es n e.2 b)

/-- `pathN es n a b`: there is a directed walk of exactly `n` edges of `es`
from `a` to `b`. -/
def pathN (es : List (Nat × Nat)) : Nat → Nat → Nat → Prop
  | 0, a, b => a = b
  | n + 1, a, b => ∃ c, (a, c) ∈ es ∧ pathN es n c b

/-- Boolean cycle check over the operator-collapsed graph: some edge
`(a, c)` closes into a walk of at most `es.length` further edges back to
`a`. -/
def hasCycleB (es : List (Nat × Nat)) : Bool :=
  es.any (fun e =>
    (List.range (es.length + 1)).any (fun n => pathNB es n e.2 e.1))

/-- Modelled from the spec: the errors of `validate` (§4.1); payloads are
omitted, only the error class is modelled. -/
inductive ValidationError where
  | structuralError
  | connectivityError
  | typeMismatchError
  | danglingReferenceError
deriving DecidableEq, Repr

/-- Modelled from the spec (§4.1): `validate(graph)` checks all §3
invariants — connectivity (fan-in and required inputs), acyclicity of the
operator-collapsed graph, link type compatibility and operator reference
resolvability — and fails with the matching error class.  (The spec
prescribes depth-first search for cycle detection; only the
success/failure behavior of the cycle check is modelled, by the bounded
reachability check `hasCycleB`.) -/
def validate (revs : List TransformationRevision) (g : Graph) :
    Except ValidationError Unit :=
  if ¬ (fanInOkB g && requiredOpInputsOkB g && requiredOutputsOkB g) then
    .error .connectivityError
  else if hasCycleB (collapsedEdges g) then
    .error .structuralError
  else if ¬ wellTypedB g then
    .error .typeMismatchError
  else if ¬ resolvableB revs g then
    .error .danglingReferenceError
  else
    .ok ()


/-! Declarative versions of the §3 invariants, used to state claim C1. -/
/-- No destination connector has more than one incoming link. -/
def FanInOk (g : Graph) : Prop :=
  ∀ l ∈ g.links, incomingCount g (destKey l.dest) ≤ 1

/-- Every non-constant input connector of every operator and every
non-constant workflow output has exactly one incoming link. -/
def RequiredLinked (g : Graph) : Prop :=
  (∀ op ∈ g.operators, ∀ c ∈ op.inputs,
    constantBound g (some op.id, c.id) = false →
      incomingCount g (some op.id, c.id) = 1) ∧
  (∀ c ∈ g.outputs,
    constantBound g (none, c.id) = false →
      incomingCount g (none, c.id) = 1)

/-- Each link is type compatible. -/
def WellTyped (g : Graph) : Prop :=
  ∀ l ∈ g.links,
    l.source.connector.data_type = l.dest.connector.data_type ∨
      l.dest.connector.data_type = DataType.ANY

/-- Every operator reference resolves to an existing revision. -/
def Resolvable (revs : List TransformationRevision) (g : Graph) : Prop :=
  ∀ op ∈ g.operators, (lookupRev revs op.transformation_id).isSome = true

/-- The edge relation of the operator-collapsed graph of `g`. -/
def edgeRel (g : Graph) (a b : Nat) : Prop :=
  (a, b) ∈ collapsedEdges g

/-- The operator-collapsed directed graph of `g` has no cycle: no node
reaches itself by a nonempty directed path. -/
def Acyclic (g : Graph) : Prop :=
  ¬ ∃ a, Relation.TransGen (edgeRel g) a a

/-- All four §3 graph invariants hold. -/
def ValidGraph (revs : List TransformationRevision) (g : Graph) : Prop :=
  FanInOk g ∧ RequiredLinked g ∧ Acyclic g ∧ WellTyped g ∧
    Resolvable revs g


/-! ## Nesting Resolver (§4.2) -/
/-- Modelled from the spec: the error of nesting recomputation when a cycle
has entered the store (§4.2, §7 `UnboundedNestingError`). -/
inductive NestingError where
  | unboundedNestingError
deriving DecidableEq, Repr

/-- A nesting row relative to the workflow being recomputed:
`(descendant_revision_id, via_operator_path, depth)`. -/
structure RelRow where
  descendant : Nat
  via_operator_path : List Nat
  depth : Nat
deriving DecidableEq, Repr

/-- Modelled from the spec (§4.2): the rows contributed by a list of
operators — for each operator a direct row `(transformation_id, [op], 1)`
and, one level deeper, the referenced revision's own rows prefixed with the
operator; `recChild` performs the recursion into the referenced revision. -/
def nestingRowsOfOps
    (recChild : Nat → Except NestingError (List RelRow)) :
    List Operator → Except NestingError (List RelRow)
  | [] => .ok []
  | op :: rest => do
    let childRows ← recChild op.transformation_id
    let restRows ← nestingRowsOfOps recChild rest
    .ok (⟨op.transformation_id, [op.id], 1⟩ ::
      (childRows.map (fun r =>
        ⟨r.descendant, op.id :: r.via_operator_path, r.depth + 1⟩) ++
        restRows))

/-- Modelled from the spec (§4.2): recursion into one referenced revision.
`visiting` is the chain of ancestor revision ids; a repeated id means the
stored references form a cycle, and recomputation fails with
`UnboundedNestingError` rather than looping.  `fuel` bounds the recursion
structurally; callers pass more fuel than there are stored revisions, so
exhaustion is unreachable on any store (proved below). -/
def nestingOfRev (revs : List TransformationRevision) :
    Nat → List Nat → Nat → Except NestingError (List RelRow)
  | 0, _, _ => .error .unboundedNestingError
  | fuel + 1, visiting, rid =>
    if rid ∈ visiting then .error .unboundedNestingError
    else
      match lookupRev revs rid with
      | some rev =>
        match rev.content with
        | .workflow gr =>
          nestingRowsOfOps
            (fun tid => nestingOfRev revs fuel (rid :: visiting) tid)
            gr.operators
        | .component _ => .ok []
      | none => .ok []

/-- Modelled from the spec (§4.2): `recompute(workflow_id)` — the nesting
rows of one workflow, derived from the stored graphs, one row per distinct
path to a descendant. -/
def recompute (revs : List TransformationRevision) (wid : Nat) :
    Except NestingError (List NestingRow) :=
  match nestingOfRev revs (revs.length + 1) [] wid with
  | .ok rows =>
    .ok (rows.map (fun r =>
      ⟨wid, r.descendant, r.via_operator_path, r.depth⟩))
  | .error e => .error e

/-- `refRel revs a b`: stored revision `a` is a workflow one of whose
operators references `b` by `transformation_id`. -/
def refRel (revs : List TransformationRevision) (a b : Nat) : Prop :=
  ∃ rev g, lookupRev revs a = some rev ∧ rev.content = .workflow g ∧
    b ∈ g.operators.map (fun op => op.transformation_id)

/-- Some revision reachable from `w` through stored workflow references
lies on a reference cycle (store corruption, §4.2). -/
def CycleReachable (revs : List TransformationRevision) (w : Nat) : Prop :=
  ∃ v, Relation.ReflTransGen (refRel revs) w v ∧
    Relation.TransGen (refRel revs) v v

/-- `v` is the id of a stored workflow revision. -/
def IsWorkflowId (revs : List TransformationRevision) (v : Nat) : Prop :=
  ∃ rev g, lookupRev revs v = some rev ∧ rev.content = .workflow g

/-! ## Store operations (§6) and the atomic write (§5) -/
/-- Modelled from the spec (§6): `put(revision)` — overwrite-by-id. -/
def replaceRev (revs : List TransformationRevision)
    (rev : TransformationRevision) : List TransformationRevision :=
  revs.filter (fun r => ! (r.id == rev.id)) ++ [rev]

/-- Modelled from the spec (§6): `replace_nesting(workflow_id, rows)` —
the workflow's previous nesting rows are replaced, never mutated in
place (§3). -/
def replaceNesting (s : Store) (wid : Nat) (rows : List NestingRow) :
    Store :=
  { s with nestings :=
      s.nestings.filter (fun row => ! (row.workflow_revision_id == wid)) ++
        rows }

/-- Modelled from the spec (§4.2, §2): recompute the nesting rows of one
workflow from the stored graphs and replace the stored rows (the
`update_or_create_nesting` operation of the test file). -/
def update_or_create_nesting (s : Store) (wid : Nat) :
    Except NestingError Store :=
  match recompute s.revisions wid with
  | .ok rows => .ok (replaceNesting s wid rows)
  | .error e => .error e

/-! ## Lifecycle State Machine (§4.3) and the service operations (§6) -/
/-- Modelled from the spec (§4.3, §7): lifecycle errors. -/
inductive LifecycleError where
  | immutableRevisionError
  | invalidTransitionError
deriving DecidableEq, Repr

/-- Modelled from the spec (§7): the error taxonomy surfaced by the core's
write and delete operations. -/
inductive CoreError where
  | validation (e : ValidationError)
  | lifecycle (e : LifecycleError)
  | nesting (e : NestingError)
  | referencedRevisionError
  | notFoundError
deriving DecidableEq, Repr

/-- Modelled from the spec (§4.1): validation runs on every create/update of
a workflow revision; it never runs against components. -/
def validateContent (revs : List TransformationRevision)
    (rev : TransformationRevision) : Except CoreError Unit :=
  match rev.content with
  | .component _ => .ok ()
  | .workflow g =>
    match validate revs g with
    | .ok () => .ok ()
    | .error e => .error (.validation e)

/-- Modelled from the spec (§2, §5): the atomic store write of one
revision: the Graph Model validates (workflows only), the revision is put
into the store, and for workflows the nesting rows are recomputed and
replaced — all as one unit, with no partial writes. -/
def storeWrite (s : Store) (stored : TransformationRevision) :
    Except CoreError Store :=
  match validateContent s.revisions stored with
  | .error e => .error e
  | .ok () =>
    match stored.content with
    | .component _ =>
      .ok { s with revisions := replaceRev s.revisions stored }
    | .workflow _ =>
      let s1 : Store := { s with revisions := replaceRev s.revisions stored }
      match recompute s1.revisions stored.id with
      | .ok rows => .ok (replaceNesting s1 stored.id rows)
      | .error e => .error (.nesting e)

/-- Modelled from the spec (§6): `validate_and_store` for a fresh id — the
submitted revision is stored as given. -/
def createTransformation (s : Store) (sub : TransformationRevision) :
    Except CoreError Store :=
  storeWrite s sub

/-- Modelled from the spec (§4.3, §6): `validate_and_store(revision,
allow_overwrite_released)` when the id may already exist.  The lifecycle
state machine authorizes the write first; `now` is the timestamp used for
the lifecycle stamps.  On RELEASED → DISABLED only the state and
`disabled_timestamp` of the stored revision change; on an authorized
overwrite of a RELEASED revision the content and metadata are replaced
while `state` and `released_timestamp` are kept. -/
def updateTransformation (s : Store) (sub : TransformationRevision)
    (allow_overwrite_released : Bool) (now : Nat) :
    Except CoreError Store :=
  match lookupRev s.revisions sub.id with
  | none => createTransformation s sub
  | some existing =>
    match existing.state, sub.state with
    | .DRAFT, .DRAFT => storeWrite s sub
    | .DRAFT, .RELEASED =>
      storeWrite s { sub with released_timestamp := some now }
    | .RELEASED, .RELEASED =>
      if allow_overwrite_released then
        storeWrite s { sub with
          released_timestamp := existing.released_timestamp,
          disabled_timestamp := existing.disabled_timestamp }
      else .error (.lifecycle .immutableRevisionError)
    | .RELEASED, .DISABLED =>
      let disabled : TransformationRevision :=
        { existing with state := .DISABLED, disabled_timestamp := some now }
      .ok { s with revisions := replaceRev s.revisions disabled }
    | _, _ => .error (.lifecycle .invalidTransitionError)

/-- Modelled from the spec (§4.2): `used_by(revision_id)` — reverse lookup
over the stored nesting rows. -/
def used_by (s : Store) (rid : Nat) : List Nat :=
  (s.nestings.filter
    (fun row => row.descendant_revision_id == rid)).map
    (fun row => row.workflow_revision_id)

/-- Modelled from the spec (§4.3, §6): deletion of a revision is blocked,
regardless of `allow_overwrite_released`, while any stored workflow still
references it (`used_by` non-empty); deleting an unreferenced revision
removes it together with its own nesting rows. -/
def deleteTransformation (s : Store) (rid : Nat)
    (_allow_overwrite_released : Bool) : Except CoreError Store :=
  match lookupRev s.revisions rid with
  | none => .error .notFoundError
  | some _ =>
    if (used_by s rid).isEmpty then
      .ok { revisions := s.revisions.filter (fun r => ! (r.id == rid)),
            nestings := s.nestings.filter
              (fun row => ! (row.workflow_revision_id == rid)) }
    else .error .referencedRevisionError

/-! ## Code Generator (§4.4)

The generator reads only position-free structure: its first step strips the
presentation-only position metadata (§3: positions have "no semantic
weight"), so compilation factors through the stripped graph by
construction.
-/
/-- A workflow-graph operator with position metadata removed. -/
structure SOperator where
  id : Nat
  name : String
  transformation_id : Nat
  inputs : List IOConnector
  outputs : List IOConnector
deriving DecidableEq, Repr

/-- A link endpoint with position metadata removed. -/
structure SVertex where
  operator : Option Nat
  connector : IOConnector
deriving DecidableEq, Repr

/-- A link with position metadata removed. -/
structure SLink where
  id : Nat
  source : SVertex
  dest : SVertex
deriving DecidableEq, Repr

/-- A workflow graph with position metadata removed. -/
structure SGraph where
  inputs : List IOConnector
  outputs : List IOConnector
  constants : List Constant
  operators : List SOperator
  links : List SLink
deriving DecidableEq, Repr

def stripConn (c : WfConnector) : IOConnector :=
  ⟨c.id, c.name, c.data_type⟩

def stripVertex (v : Vertex) : SVertex :=
  ⟨v.operator, stripConn v.connector⟩

def stripLink (l : Link) : SLink :=
  ⟨l.id, stripVertex l.source, stripVertex l.dest⟩

def stripOperator (op : Operator) : SOperator :=
  ⟨op.id, op.name, op.transformation_id,
    op.inputs.map stripConn, op.outputs.map stripConn⟩

/-- Erase all position metadata of a graph, keeping everything else. -/
def stripGraph (g : Graph) : SGraph :=
  ⟨g.inputs.map stripConn, g.outputs.map stripConn, g.constants,
    g.operators.map stripOperator, g.links.map stripLink⟩

/-- Revision content with position metadata removed. -/
inductive SContent where
  | component (code : String)
  | workflow (graph : SGraph)
deriving DecidableEq, Repr

def stripContent : RevContent → SContent
  | .component code => .component code
  | .workflow g => .workflow (stripGraph g)

/-- Modelled from the spec (§4.4, §7): compilation errors. -/
inductive CompileError where
  | unresolvedDependencyError
  | structuralError
deriving DecidableEq, Repr

/-- Modelled from the spec (§4.4): how one destination connector is bound
in the generated unit: a constant, a workflow input, or an operator
output. -/
inductive Binding where
  | constant (value : String)
  | fromWorkflowInput (name : String)
  | fromOperator (operatorId : Nat) (connectorName : String)
  | unbound
deriving DecidableEq, Repr

/-- Modelled from the spec (§6): an executable unit — the declared
io interface plus a runnable body: a component's code verbatim, or the
workflow body invoking, in topological order, each operator's compiled
unit with its bound inputs, and collecting the workflow outputs. -/
inductive ExecutableUnit where
  | leaf (interface : IOInterface) (code : String)
  | composite (interface : IOInterface)
      (steps : List (Nat × ExecutableUnit × List (String × Binding)))
      (outputs : List (String × Binding))

def destKeyS (v : SVertex) : Option Nat × Nat :=
  (v.operator, v.connector.id)

/-- The operator-collapsed edges of a stripped graph. -/
def collapsedEdgesS (g : SGraph) : List (Nat × Nat) :=
  g.links.filterMap (fun l =>
    match l.source.operator, l.dest.operator with
    | some a, some b => some (a, b)
    | _, _ => none)

/-- Modelled from the spec (§4.4): resolve the binding of one destination
connector: a bound constant takes precedence, else the (unique, after
validation) incoming link decides, else the connector is unbound. -/
def findBindingS (g : SGraph) (d : Option Nat × Nat) : Binding :=
  match g.constants.find? (fun k =>
      decide ((k.operator, k.connector_id) = d)) with
  | some k => .constant k.value
  | none =>
    match g.links.find? (fun l => decide (destKeyS l.dest = d)) with
    | some l =>
      match l.source.operator with
      | none => .fromWorkflowInput l.source.connector.name
      | some a => .fromOperator a l.source.connector.name
    | none => .unbound

/-- The first operator, in declaration order, with no incoming edge from a
still-remaining operator (§4.4: "ties broken by operator declaration
order, to keep generation deterministic"). -/
def pickSource (es : List (Nat × Nat)) (remaining : List SOperator) :
    Option SOperator :=
  remaining.find? (fun op =>
    ! es.any (fun e => e.2 == op.id &&
      remaining.any (fun o => o.id == e.1)))

/-- Modelled from the spec (§4.4): topological sort of the operators by the
operator-collapsed dependency graph; if no source operator remains the
graph has a cycle and the sort fails closed with a structural error. -/
def topoSort (es : List (Nat × Nat)) :
    Nat → List SOperator → Except CompileError (List SOperator)
  | _, [] => .ok []
  | 0, _ :: _ => .error .structuralError
  | fuel + 1, remaining =>
    match pickSource es remaining with
    | none => .error .structuralError
    | some op => do
      let rest ← topoSort es fuel
        (remaining.filter (fun o => ! (o.id == op.id)))
      .ok (op :: rest)

/-- Modelled from the spec (§4.4): one generated step per operator, in the
given (topological) order: the operator id, the compiled unit of its
referenced revision (via `recChild`), and the bindings of its inputs. -/
def compileStepsF (recChild : Nat → Except CompileError ExecutableUnit)
    (g : SGraph) :
    List SOperator →
      Except CompileError (List (Nat × ExecutableUnit × List (String × Binding)))
  | [] => .ok []
  | op :: rest => do
    let u ← recChild op.transformation_id
    let rest' ← compileStepsF recChild g rest
    .ok ((op.id, u, op.inputs.map (fun c =>
      (c.name, findBindingS g (some op.id, c.id)))) :: rest')

/-- Modelled from the spec (§4.4): compile one (stripped) workflow graph:
topologically order the operators, compile each referenced revision, bind
constants and links, and emit one unit whose interface is the workflow's
io interface and whose outputs collect the links arriving at workflow
outputs. -/
def compileGraphS (recChild : Nat → Except CompileError ExecutableUnit)
    (iface : IOInterface) (g : SGraph) :
    Except CompileError ExecutableUnit := do
  let sorted ← topoSort (collapsedEdgesS g) g.operators.length g.operators
  let steps ← compileStepsF recChild g sorted
  .ok (.composite iface steps (g.outputs.map (fun c =>
    (c.name, findBindingS g (none, c.id)))))

/-- Modelled from the spec (§4.4): compile the revision stored under `rid`.
A missing revision fails with `UnresolvedDependencyError`; a reference back
into the chain of revisions currently being compiled is a cycle and fails
closed with a structural error.  `fuel` bounds the recursion structurally;
the top-level call passes more fuel than there are stored revisions. -/
def compileRevId (revs : List TransformationRevision) :
    Nat → List Nat → Nat → Except CompileError ExecutableUnit
  | 0, _, _ => .error .structuralError
  | fuel + 1, visiting, rid =>
    if rid ∈ visiting then .error .structuralError
    else
      match lookupRev revs rid with
      | none => .error .unresolvedDependencyError
      | some rev =>
        match rev.content with
        | .component code => .ok (.leaf rev.io_interface code)
        | .workflow g =>
          compileGraphS
            (fun tid => compileRevId revs fuel (rid :: visiting) tid)
            rev.io_interface (stripGraph g)

/-- Modelled from the spec (§4.4): `compile(revision)`.  A component's
stored code and declared interface are returned verbatim; a workflow's
graph is stripped of position metadata and recursively expanded against
the store. -/
def compileTransformation (s : Store) (rev : TransformationRevision) :
    Except CompileError ExecutableUnit :=
  match rev.content with
  | .component code => .ok (.leaf rev.io_interface code)
  | .workflow g =>
    compileGraphS
      (fun tid =>
        compileRevId s.revisions (s.revisions.length + 1) [rev.id] tid)
      rev.io_interface (stripGraph g)

/-! ## Concrete fixtures, mirroring the revisions of the test file -/
/-- A DRAFT component with an INT input and an INT output (the test file's
`tr_json_component_1`). -/
def exComponent1 : TransformationRevision :=
  { id := 1, revision_group_id := 10, name := "component 1",
    description := "description of component 1", category := "category",
    documentation := "documentation", version_tag := "1.0.0",
    io_interface :=
      ⟨[⟨100, "operator_input", .INT⟩], [⟨101, "operator_output", .INT⟩]⟩,
    state := .DRAFT, released_timestamp := none, disabled_timestamp := none,
    content := .component "code" }

/-- A valid workflow graph: one operator referencing component 1, wired
from the workflow input and to the workflow output (the test file's
`tr_json_workflow_2` content). -/
def exGraph2 : Graph :=
  { inputs := [⟨200, "wf_input", .INT, ⟨0, 0⟩⟩],
    outputs := [⟨201, "wf_output", .INT, ⟨0, 0⟩⟩],
    constants := [],
    operators :=
      [⟨50, "operator", 1, [⟨100, "operator_input", .INT, ⟨0, 0⟩⟩],
        [⟨101, "operator_output", .INT, ⟨0, 0⟩⟩], ⟨0, 0⟩⟩],
    links :=
      [⟨300, ⟨none, ⟨200, "wf_input", .INT, ⟨0, 0⟩⟩⟩,
        ⟨some 50, ⟨100, "operator_input", .INT, ⟨0, 0⟩⟩⟩⟩,
       ⟨301, ⟨some 50, ⟨101, "operator_output", .INT, ⟨0, 0⟩⟩⟩,
        ⟨none, ⟨201, "wf_output", .INT, ⟨0, 0⟩⟩⟩⟩] }

/-- The same graph with every position moved: structurally equal to
`exGraph2` ignoring position metadata. -/
def exGraph2Moved : Graph :=
  { inputs := [⟨200, "wf_input", .INT, ⟨7, 7⟩⟩],
    outputs := [⟨201, "wf_output", .INT, ⟨7, 7⟩⟩],
    constants := [],
    operators :=
      [⟨50, "operator", 1, [⟨100, "operator_input", .INT, ⟨7, 7⟩⟩],
        [⟨101, "operator_output", .INT, ⟨7, 7⟩⟩], ⟨7, 7⟩⟩],
    links :=
      [⟨300, ⟨none, ⟨200, "wf_input", .INT, ⟨7, 7⟩⟩⟩,
        ⟨some 50, ⟨100, "operator_input", .INT, ⟨7, 7⟩⟩⟩⟩,
       ⟨301, ⟨some 50, ⟨101, "operator_output", .INT, ⟨7, 7⟩⟩⟩,
        ⟨none, ⟨201, "wf_output", .INT, ⟨7, 7⟩⟩⟩⟩] }

/-- The workflow revision over `exGraph2`. -/
def exWorkflow2 : TransformationRevision :=
  { id := 2, revision_group_id := 11, name := "workflow 2",
    description := "description of workflow 2", category := "category",
    documentation := "documentation", version_tag := "1.0.0",
    io_interface := ⟨[⟨200, "wf_input", .INT⟩], [⟨201, "wf_output", .INT⟩]⟩,
    state := .DRAFT, released_timestamp := none, disabled_timestamp := none,
    content := .workflow exGraph2 }

/-- The same stored workflow with the graph's positions moved. -/
def exWorkflow2Moved : TransformationRevision :=
  { exWorkflow2 with content := .workflow exGraph2Moved }

/-- A store holding component 1 and workflow 2. -/
def exStore : Store := ⟨[exComponent1, exWorkflow2], []⟩

/-- A graph with a fan-in violation: two links arrive at the same operator
input connector. -/
def exGraphBad : Graph :=
  { inputs :=
      [⟨200, "wf_input", .INT, ⟨0, 0⟩⟩, ⟨202, "wf_input2", .INT, ⟨0, 0⟩⟩],
    outputs := [],
    constants := [],
    operators :=
      [⟨50, "operator", 1, [⟨100, "operator_input", .INT, ⟨0, 0⟩⟩],
        [⟨101, "operator_output", .INT, ⟨0, 0⟩⟩], ⟨0, 0⟩⟩],
    links :=
      [⟨300, ⟨none, ⟨200, "wf_input", .INT, ⟨0, 0⟩⟩⟩,
        ⟨some 50, ⟨100, "operator_input", .INT, ⟨0, 0⟩⟩⟩⟩,
       ⟨302, ⟨none, ⟨202, "wf_input2", .INT, ⟨0, 0⟩⟩⟩,
        ⟨some 50, ⟨100, "operator_input", .INT, ⟨0, 0⟩⟩⟩⟩] }

/-- A workflow revision over the invalid graph. -/
def exBadWf : TransformationRevision :=
  { exWorkflow2 with id := 9, content := .workflow exGraphBad }

/-- A corrupted store entry: a workflow whose single operator references
the workflow itself. -/
def exGraphCyc : Graph :=
  { inputs := [], outputs := [], constants := [],
    operators := [⟨60, "self", 3, [], [], ⟨0, 0⟩⟩], links := [] }

def exWfCyc : TransformationRevision :=
  { id := 3, revision_group_id := 12, name := "workflow cyc",
    description := "", category := "category", documentation := "",
    version_tag := "1.0.0", io_interface := ⟨[], []⟩,
    state := .DRAFT, released_timestamp := none, disabled_timestamp := none,
    content := .workflow exGraphCyc }

/-- A RELEASED component (the test file's `tr_json_component_2`). -/
def exComponent2 : TransformationRevision :=
  { id := 4, revision_group_id := 13, name := "component 2",
    description := "description of component 2", category := "category",
    documentation := "documentation", version_tag := "1.0.0",
    io_interface := ⟨[], []⟩,
    state := .RELEASED, released_timestamp := some 100,
    disabled_timestamp := none, content := .component "code" }

/-- The update payload for component 2 with changed metadata (the test
file's `tr_json_component_2_update`). -/
def exComponent2Update : TransformationRevision :=
  { exComponent2 with name := "new name", category := "Test" }

/-- The deprecation payload: state DISABLED. -/
def exDeprecateSub : TransformationRevision :=
  { exComponent2 with state := .DISABLED }

/-- Component 2 after it has been disabled in the store. -/
def exComponentDisabled : TransformationRevision :=
  { exComponent2 with state := .DISABLED, disabled_timestamp := some 150 }

def exStoreRel : Store := ⟨[exComponent2], []⟩

def exStoreDis : Store := ⟨[exComponentDisabled], []⟩

/-- The store after workflow 2's nesting rows have been recomputed. -/
def exStoreNest : Store := ⟨[exComponent1, exWorkflow2], [⟨2, 1, [50], 1⟩]⟩

def exStoreEmpty : Store := ⟨[], []⟩


/-! ## Theorems -/

theorem pyReplace_nil (p : Char) (ps rep : List Char) :
    pyReplace p ps rep [] = [] := by
  simp [pyReplace]

theorem pyReplace_cons_pos (p : Char) (ps rep : List Char) (c : Char)
    (cs : List Char) (h : (p :: ps) <+: (c :: cs)) :
    pyReplace p ps rep (c :: cs) =
      rep ++ pyReplace p ps rep (cs.drop ps.length) := by
  rw [pyReplace, if_pos h]

theorem pyReplace_cons_neg (p : Char) (ps rep : List Char) (c : Char)
    (cs : List Char) (h : ¬ (p :: ps) <+: (c :: cs)) :
    pyReplace p ps rep (c :: cs) = c :: pyReplace p ps rep cs := by
  rw [pyReplace, if_neg h]


theorem encUnderscore_cons_us (cs : List Char) :
    encUnderscore ('_' :: cs) = '-' :: '_' :: '-' :: encUnderscore cs := by
  have h : ('_' :: ([] : List Char)) <+: ('_' :: cs) := by simp
  have := pyReplace_cons_pos '_' [] ['-', '_', '-'] '_' cs h
  simpa [encUnderscore] using this

theorem encUnderscore_cons (c : Char) (cs : List Char) (h : c ≠ '_') :
    encUnderscore (c :: cs) = c :: encUnderscore cs := by
  have hp : ¬ ('_' :: ([] : List Char)) <+: (c :: cs) := by
    simp [Ne.symm h]
  exact pyReplace_cons_neg '_' [] ['-', '_', '-'] c cs hp

theorem encSlash_cons_slash (cs : List Char) :
    encSlash ('/' :: cs) = '_' :: '_' :: encSlash cs := by
  have h : ('/' :: ([] : List Char)) <+: ('/' :: cs) := by simp
  have := pyReplace_cons_pos '/' [] ['_', '_'] '/' cs h
  simpa [encSlash] using this

theorem encSlash_cons (c : Char) (cs : List Char) (h : c ≠ '/') :
    encSlash (c :: cs) = c :: encSlash cs := by
  have hp : ¬ ('/' :: ([] : List Char)) <+: (c :: cs) := by
    simp [Ne.symm h]
  exact pyReplace_cons_neg '/' [] ['_', '_'] c cs hp

theorem decSlash_cons_two (cs : List Char) :
    decSlash ('_' :: '_' :: cs) = '/' :: decSlash cs := by
  have h : ('_' :: ['_']) <+: ('_' :: '_' :: cs) := by simp
  have := pyReplace_cons_pos '_' ['_'] ['/'] '_' ('_' :: cs) h
  simpa [decSlash] using this

theorem decSlash_cons (c : Char) (cs : List Char) (h : c ≠ '_') :
    decSlash (c :: cs) = c :: decSlash cs := by
  have hp : ¬ ('_' :: ['_']) <+: (c :: cs) := by
    simp [Ne.symm h]
  exact pyReplace_cons_neg '_' ['_'] ['/'] c cs hp

theorem decSlash_cons_us_ne (c : Char) (cs : List Char) (h : c ≠ '_') :
    decSlash ('_' :: c :: cs) = '_' :: decSlash (c :: cs) := by
  have hp : ¬ ('_' :: ['_']) <+: ('_' :: c :: cs) := by
    simp [Ne.symm h]
  exact pyReplace_cons_neg '_' ['_'] ['/'] '_' (c :: cs) hp

theorem decUnderscore_cons_block (cs : List Char) :
    decUnderscore ('-' :: '_' :: '-' :: cs) = '_' :: decUnderscore cs := by
  have h : ('-' :: ['_', '-']) <+: ('-' :: '_' :: '-' :: cs) := by simp
  have := pyReplace_cons_pos '-' ['_', '-'] ['_'] '-' ('_' :: '-' :: cs) h
  simpa [decUnderscore] using this

theorem decUnderscore_cons (c : Char) (cs : List Char) (h : c ≠ '-') :
    decUnderscore (c :: cs) = c :: decUnderscore cs := by
  have hp : ¬ ('-' :: ['_', '-']) <+: (c :: cs) := by
    simp [Ne.symm h]
  exact pyReplace_cons_neg '-' ['_', '-'] ['_'] c cs hp

theorem decUnderscore_cons_dash (cs : List Char)
    (h : cs.head? ≠ some '_') :
    decUnderscore ('-' :: cs) = '-' :: decUnderscore cs := by
  have hp : ¬ ('-' :: ['_', '-']) <+: ('-' :: cs) := by
    intro hpre
    rcases cs with _ | ⟨c2, cs⟩
    · simpa using hpre.length_le
    · rw [List.cons_prefix_cons, List.cons_prefix_cons] at hpre
      exact h (by simp [← hpre.2.1])
  exact pyReplace_cons_neg '-' ['_', '-'] ['_'] '-' cs hp

theorem encSlash_encUnderscore_eq_flatMap (l : List Char) :
    encSlash (encUnderscore l) = l.flatMap encBlock := by
  induction l with
  | nil => simp [encUnderscore, encSlash, pyReplace_nil]
  | cons c cs ih =>
    by_cases hu : c = '_'
    · subst hu
      rw [encUnderscore_cons_us, encSlash_cons _ _ (by decide),
        encSlash_cons _ _ (by decide), encSlash_cons _ _ (by decide), ih]
      simp [encBlock]
    · by_cases hs : c = '/'
      · subst hs
        rw [encUnderscore_cons _ _ (by decide), encSlash_cons_slash, ih]
        simp [encBlock]
      · rw [encUnderscore_cons _ _ hu, encSlash_cons _ _ hs, ih]
        simp [encBlock, hu, hs]

theorem decSlash_flatMap_encBlock (l : List Char) :
    decSlash (l.flatMap encBlock) = l.flatMap midBlock := by
  induction l with
  | nil => simp [decSlash, pyReplace_nil]
  | cons c cs ih =>
    rw [List.flatMap_cons, List.flatMap_cons]
    by_cases hu : c = '_'
    · subst hu
      show decSlash ('-' :: '_' :: '-' :: cs.flatMap encBlock) =
        '-' :: '_' :: '-' :: cs.flatMap midBlock
      rw [decSlash_cons _ _ (by decide), decSlash_cons_us_ne _ _ (by decide),
        decSlash_cons _ _ (by decide), ih]
    · by_cases hs : c = '/'
      · subst hs
        show decSlash ('_' :: '_' :: cs.flatMap encBlock) =
          '/' :: cs.flatMap midBlock
        rw [decSlash_cons_two, ih]
      · have hb : encBlock c = [c] := by simp [encBlock, hu, hs]
        have hm : midBlock c = [c] := by simp [midBlock, hu]
        rw [hb, hm, List.singleton_append, List.singleton_append,
          decSlash_cons _ _ hu, ih]

theorem head?_flatMap_midBlock_ne_us (l : List Char) :
    (l.flatMap midBlock).head? ≠ some '_' := by
  cases l with
  | nil => simp
  | cons c cs =>
    by_cases hu : c = '_'
    · subst hu
      simp [midBlock]
    · simp [midBlock, if_neg hu, hu]

theorem decUnderscore_flatMap_midBlock (l : List Char) :
    decUnderscore (l.flatMap midBlock) = l := by
  induction l with
  | nil => simp [decUnderscore, pyReplace_nil]
  | cons c cs ih =>
    rw [List.flatMap_cons]
    by_cases hu : c = '_'
    · subst hu
      show decUnderscore ('-' :: '_' :: '-' :: cs.flatMap midBlock) = '_' :: cs
      rw [decUnderscore_cons_block, ih]
    · have hm : midBlock c = [c] := by simp [midBlock, hu]
      rw [hm, List.singleton_append]
      by_cases hd : c = '-'
      · subst hd
        rw [decUnderscore_cons_dash _ (head?_flatMap_midBlock_ne_us cs), ih]
      · rw [decUnderscore_cons _ _ hd, ih]

/-- **C9.** For every string `p`,
`from_url_representation (to_url_representation p) = p`:
encoding a path by replacing every `"_"` with `"-_-"` and then every `"/"`
with `"__"` is exactly inverted by decoding via replacing every `"__"` with
`"/"` and then every `"-_-"` with `"_"`. -/
theorem from_url_representation_to_url_representation (p : String) :
    from_url_representation (to_url_representation p) = p := by
  show String.mk (decUnderscore (decSlash (encSlash (encUnderscore p.toList)))) = p
  rw [encSlash_encUnderscore_eq_flatMap, decSlash_flatMap_encBlock,
    decUnderscore_flatMap_midBlock]
  cases p
  rfl


/-! ### Correctness of the bounded-reachability cycle check -/
theorem pathNB_iff_pathN (es : List (Nat × Nat)) :
    ∀ n a b, pathNB es n a b = true ↔ pathN es n a b := by
  intro n
  induction n with
  | zero => intro a b; simp [pathNB, pathN]
  | succ n ih =>
    intro a b
    simp only [pathNB, pathN, List.any_eq_true, Bool.and_eq_true, beq_iff_eq]
    constructor
    · rintro ⟨e, he, rfl, hp⟩
      exact ⟨e.2, by simpa using he, (ih _ _).mp hp⟩
    · rintro ⟨c, hc, hp⟩
      exact ⟨(a, c), hc, rfl, (ih _ _).mpr hp⟩

theorem pathN_toReflTransGen (es : List (Nat × Nat)) :
    ∀ n a b, pathN es n a b →
      Relation.ReflTransGen (fun x y => (x, y) ∈ es) a b := by
  intro n
  induction n with
  | zero => intro a b h; exact h ▸ Relation.ReflTransGen.refl
  | succ n ih =>
    rintro a b ⟨c, hc, hp⟩
    exact Relation.ReflTransGen.head hc (ih _ _ hp)

theorem reflTransGen_toPathN (es : List (Nat × Nat)) (a b : Nat)
    (h : Relation.ReflTransGen (fun x y => (x, y) ∈ es) a b) :
    ∃ n, pathN es n a b := by
  induction h using Relation.ReflTransGen.head_induction_on with
  | refl => exact ⟨0, rfl⟩
  | head hd _ ih =>
    obtain ⟨n, hp⟩ := ih
    exact ⟨n + 1, _, hd, hp⟩

/-- Walks as explicit vertex lists: `pathN` corresponds to a `Chain'` over
the edge-membership relation. -/
theorem pathN_iff_walk (es : List (Nat × Nat)) :
    ∀ n a b, pathN es n a b ↔
      ∃ p : List Nat, p.length = n ∧
        List.Chain' (fun x y => (x, y) ∈ es) (a :: p) ∧
        (a :: p).getLast? = some b := by
  intro n
  induction n with
  | zero =>
    intro a b
    constructor
    · intro h
      exact ⟨[], rfl, List.chain'_singleton a, by simp [pathN] at h; simp [h]⟩
    · rintro ⟨p, hlen, _, hlast⟩
      rw [List.length_eq_zero] at hlen
      subst hlen
      simpa [pathN] using hlast
  | succ n ih =>
    intro a b
    constructor
    · rintro ⟨c, hc, hp⟩
      obtain ⟨p, hlen, hch, hlast⟩ := (ih c b).mp hp
      refine ⟨c :: p, by simp [hlen], ?_, ?_⟩
      · exact List.chain'_cons.mpr ⟨hc, hch⟩
      · simpa [List.getLast?_cons_cons] using hlast
    · rintro ⟨p, hlen, hch, hlast⟩
      rcases p with _ | ⟨c, p⟩
      · simp at hlen
      · rw [List.chain'_cons] at hch
        refine ⟨c, hch.1, (ih c b).mpr ⟨p, by simpa using hlen, hch.2, ?_⟩⟩
        simpa [List.getLast?_cons_cons] using hlast

/-- Every vertex of a walk other than its start is the target of some
edge. -/
theorem walk_tail_mem_snd (es : List (Nat × Nat)) :
    ∀ (p : List Nat) (a : Nat),
      List.Chain' (fun x y => (x, y) ∈ es) (a :: p) →
      ∀ x ∈ p, x ∈ es.map Prod.snd := by
  intro p
  induction p with
  | nil => intro a _ x hx; simp at hx
  | cons c cs ih =>
    intro a hch x hx
    rw [List.chain'_cons] at hch
    rcases List.mem_cons.mp hx with rfl | hx
    · exact List.mem_map.mpr ⟨(a, x), hch.1, rfl⟩
    · exact ih c hch.2 x hx

/-- Pigeonhole: a list longer than a list containing all its elements has a
duplicate. -/
theorem not_nodup_of_long (p S : List Nat) (hsub : ∀ x ∈ p, x ∈ S)
    (hlen : S.length < p.length) : ¬ p.Nodup := by
  intro hnd
  have h1 : p.toFinset.card = p.length := List.toFinset_card_of_nodup hnd
  have h2 : p.toFinset ⊆ S.toFinset := by
    intro x hx
    exact List.mem_toFinset.mpr (hsub x (List.mem_toFinset.mp hx))
  have h3 : p.toFinset.card ≤ S.toFinset.card := Finset.card_le_card h2
  have h4 : S.toFinset.card ≤ S.length := S.toFinset_card_le
  omega

/-- A list with a duplicate splits around its two occurrences. -/
theorem split_of_not_nodup {p : List Nat} (h : ¬ p.Nodup) :
    ∃ (x : Nat) (l₁ l₂ l₃ : List Nat),
      p = l₁ ++ x :: (l₂ ++ x :: l₃) := by
  obtain ⟨x, hdup⟩ := List.exists_duplicate_iff_not_nodup.mpr h
  have hsub : List.Sublist [x, x] p := List.duplicate_iff_sublist.mp hdup
  rw [List.cons_sublist_iff] at hsub
  obtain ⟨r₁, r₂, rfl, hx₁, hx₂⟩ := hsub
  rw [List.singleton_sublist] at hx₂
  obtain ⟨s₁, s₂, rfl⟩ := List.append_of_mem hx₁
  obtain ⟨t₁, t₂, rfl⟩ := List.append_of_mem hx₂
  exact ⟨x, s₁, s₂ ++ t₁, t₂, by simp⟩

/-- Cutting a duplicated vertex out of a walk yields a strictly shorter
walk with the same endpoints. -/
theorem walk_cut (es : List (Nat × Nat)) (a b : Nat) (p : List Nat)
    (hch : List.Chain' (fun x y => (x, y) ∈ es) (a :: p))
    (hlast : (a :: p).getLast? = some b) (hnd : ¬ p.Nodup) :
    ∃ p' : List Nat, p'.length < p.length ∧
      List.Chain' (fun x y => (x, y) ∈ es) (a :: p') ∧
      (a :: p').getLast? = some b := by
  obtain ⟨x, l₁, l₂, l₃, rfl⟩ := split_of_not_nodup hnd
  refine ⟨l₁ ++ x :: l₃, by simp; omega, ?_, ?_⟩
  · have hsplit1 : List.Chain' (fun x y => (x, y) ∈ es)
        ((a :: l₁) ++ x :: (l₂ ++ x :: l₃)) := by
      simpa using hch
    rw [List.chain'_split] at hsplit1
    obtain ⟨h1, h2⟩ := hsplit1
    have h2' : List.Chain' (fun x y => (x, y) ∈ es)
        ((x :: l₂) ++ x :: l₃) := by
      simpa using h2
    rw [List.chain'_split] at h2'
    have : List.Chain' (fun x y => (x, y) ∈ es) ((a :: l₁) ++ x :: l₃) :=
      List.chain'_split.mpr ⟨h1, h2'.2⟩
    simpa using this
  · have e1 : (a :: (l₁ ++ x :: (l₂ ++ x :: l₃))).getLast? =
        (x :: l₃).getLast? := by
      rw [show a :: (l₁ ++ x :: (l₂ ++ x :: l₃)) =
        (a :: l₁ ++ x :: l₂) ++ x :: l₃ by simp]
      exact List.getLast?_append_of_ne_nil _ (by simp)
    have e2 : (a :: (l₁ ++ x :: l₃)).getLast? = (x :: l₃).getLast? := by
      rw [show a :: (l₁ ++ x :: l₃) = (a :: l₁) ++ x :: l₃ by simp]
      exact List.getLast?_append_of_ne_nil _ (by simp)
    rw [e2, ← e1, hlast]

/-- Walk shortening: any walk yields one of at most `es.length` edges with
the same endpoints. -/
theorem pathN_shorten (es : List (Nat × Nat)) :
    ∀ n a b, pathN es n a b → ∃ m, m ≤ es.length ∧ pathN es m a b := by
  intro n
  induction n using Nat.strong_induction_on with
  | _ n ihs =>
    intro a b hp
    by_cases hle : n ≤ es.length
    · exact ⟨n, hle, hp⟩
    · obtain ⟨p, hlen, hch, hlast⟩ := (pathN_iff_walk es n a b).mp hp
      have hsub : ∀ x ∈ p, x ∈ es.map Prod.snd :=
        walk_tail_mem_snd es p a hch
      have hnd : ¬ p.Nodup := by
        refine not_nodup_of_long p (es.map Prod.snd) hsub ?_
        simp only [List.length_map]
        omega
      obtain ⟨p', hlt, hch', hlast'⟩ := walk_cut es a b p hch hlast hnd
      have hp' : pathN es p'.length a b :=
        (pathN_iff_walk es p'.length a b).mpr ⟨p', rfl, hch', hlast'⟩
      exact ihs p'.length (by omega) a b hp'

/-- The bounded-reachability cycle check is correct: it fires exactly when
some node closes a nonempty directed cycle. -/
theorem hasCycleB_iff (es : List (Nat × Nat)) :
    hasCycleB es = true ↔
      ∃ a, Relation.TransGen (fun x y => (x, y) ∈ es) a a := by
  unfold hasCycleB
  simp only [List.any_eq_true, List.mem_range]
  constructor
  · rintro ⟨e, he, n, _, hp⟩
    have hpath : pathN es n e.2 e.1 := (pathNB_iff_pathN es n e.2 e.1).mp hp
    have hr : Relation.ReflTransGen (fun x y => (x, y) ∈ es) e.2 e.1 :=
      pathN_toReflTransGen es n e.2 e.1 hpath
    exact ⟨e.1, Relation.TransGen.head' (by simpa using he) hr⟩
  · rintro ⟨a, htg⟩
    obtain ⟨c, hac, hca⟩ := Relation.TransGen.head'_iff.mp htg
    obtain ⟨n, hp⟩ := reflTransGen_toPathN es c a hca
    obtain ⟨m, hm, hp'⟩ := pathN_shorten es n c a hp
    refine ⟨(a, c), hac, m, by omega, ?_⟩
    exact (pathNB_iff_pathN es m c a).mpr hp'


/-! ### The boolean checks decide the declarative invariants -/
theorem fanInOkB_iff (g : Graph) : fanInOkB g = true ↔ FanInOk g := by
  simp [fanInOkB, FanInOk]

theorem requiredOkB_iff (g : Graph) :
    (requiredOpInputsOkB g && requiredOutputsOkB g) = true ↔
      RequiredLinked g := by
  simp only [requiredOpInputsOkB, requiredOutputsOkB, RequiredLinked,
    Bool.and_eq_true, List.all_eq_true, Bool.or_eq_true, decide_eq_true_iff]
  constructor
  · rintro ⟨h1, h2⟩
    refine ⟨fun op hop c hc hcb => ?_, fun c hc hcb => ?_⟩
    · rcases h1 op hop c hc with h | h
      · rw [hcb] at h; cases h
      · exact h
    · rcases h2 c hc with h | h
      · rw [hcb] at h; cases h
      · exact h
  · rintro ⟨h1, h2⟩
    refine ⟨fun op hop c hc => ?_, fun c hc => ?_⟩
    · cases hcb : constantBound g (some op.id, c.id)
      · exact Or.inr (h1 op hop c hc hcb)
      · exact Or.inl rfl
    · cases hcb : constantBound g (none, c.id)
      · exact Or.inr (h2 c hc hcb)
      · exact Or.inl rfl

theorem wellTypedB_iff (g : Graph) : wellTypedB g = true ↔ WellTyped g := by
  simp [wellTypedB, WellTyped]

theorem resolvableB_iff (revs : List TransformationRevision) (g : Graph) :
    resolvableB revs g = true ↔ Resolvable revs g := by
  simp [resolvableB, Resolvable]

theorem hasCycleB_false_iff_acyclic (g : Graph) :
    hasCycleB (collapsedEdges g) = false ↔ Acyclic g := by
  rw [← Bool.not_eq_true, not_iff_comm, Acyclic, not_not]
  exact (hasCycleB_iff (collapsedEdges g)).symm

/-- `validate` succeeds exactly on the graphs satisfying the four §3
invariants. -/
theorem validate_ok_iff (revs : List TransformationRevision)
    (g : Graph) :
    validate revs g = .ok () ↔ ValidGraph revs g := by
  unfold validate ValidGraph
  rw [← fanInOkB_iff, ← requiredOkB_iff, ← hasCycleB_false_iff_acyclic,
    ← wellTypedB_iff, ← resolvableB_iff revs]
  cases h1 : fanInOkB g <;>
    cases h2 : requiredOpInputsOkB g <;>
    cases h3 : requiredOutputsOkB g <;>
    cases h4 : hasCycleB (collapsedEdges g) <;>
    cases h5 : wellTypedB g <;>
    cases h6 : resolvableB revs g <;>
    simp


theorem lookupRev_spec (revs : List TransformationRevision) (rid : Nat)
    (rev : TransformationRevision) (h : lookupRev revs rid = some rev) :
    rev ∈ revs ∧ rev.id = rid := by
  refine ⟨List.mem_of_find?_eq_some h, ?_⟩
  have := List.find?_some h
  simpa using this

theorem lookupRev_mem_ids (revs : List TransformationRevision) (rid : Nat)
    (rev : TransformationRevision) (h : lookupRev revs rid = some rev) :
    rid ∈ revs.map (fun r => r.id) := by
  obtain ⟨hm, hid⟩ := lookupRev_spec revs rid rev h
  exact List.mem_map.mpr ⟨rev, hm, hid⟩

theorem nestingRowsOfOps_ok_of
    (f : Nat → Except NestingError (List RelRow)) (ops : List Operator)
    (h : ∀ op ∈ ops, ∃ r, f op.transformation_id = .ok r) :
    ∃ rows, nestingRowsOfOps f ops = .ok rows := by
  induction ops with
  | nil => exact ⟨[], rfl⟩
  | cons op rest ih =>
    obtain ⟨r, hr⟩ := h op (List.mem_cons_self op rest)
    obtain ⟨rows, hrows⟩ := ih (fun o ho => h o (List.mem_cons_of_mem op ho))
    exact ⟨⟨op.transformation_id, [op.id], 1⟩ ::
      (r.map (fun q =>
        ⟨q.descendant, op.id :: q.via_operator_path, q.depth + 1⟩) ++ rows),
      by rw [nestingRowsOfOps, hr, hrows]; rfl⟩

theorem nestingRowsOfOps_ok_child
    (f : Nat → Except NestingError (List RelRow)) (ops : List Operator)
    (rows : List RelRow) (h : nestingRowsOfOps f ops = .ok rows) :
    ∀ op ∈ ops, ∃ r, f op.transformation_id = .ok r := by
  induction ops generalizing rows with
  | nil => intro op hop; simp at hop
  | cons op₀ rest ih =>
    intro op hop
    rw [nestingRowsOfOps] at h
    rcases hc : f op₀.transformation_id with e | childRows
    · rw [hc] at h; simp [Bind.bind, Except.bind] at h
    · rw [hc] at h
      rcases hrest : nestingRowsOfOps f rest with e | restRows
      · rw [hrest] at h; simp [Bind.bind, Except.bind] at h
      · rcases List.mem_cons.mp hop with rfl | hop'
        · exact ⟨childRows, hc⟩
        · exact ih restRows hrest op hop'

/-- If no reference cycle is reachable from `rid`, recomputation starting at
`rid` succeeds (given enough fuel and a sound ancestor chain). -/
theorem nestingOfRev_ok_of_acyclic (revs : List TransformationRevision) :
    ∀ (fuel : Nat) (visiting : List Nat) (rid : Nat),
      (¬ ∃ v, Relation.ReflTransGen (refRel revs) rid v ∧
        Relation.TransGen (refRel revs) v v) →
      (∀ v ∈ visiting, ¬ Relation.ReflTransGen (refRel revs) rid v) →
      visiting.Nodup →
      (∀ v ∈ visiting, v ∈ revs.map (fun r => r.id)) →
      revs.length + 1 ≤ fuel + visiting.length →
      ∃ rows, nestingOfRev revs fuel visiting rid = .ok rows := by
  intro fuel
  induction fuel with
  | zero =>
    intro visiting rid _ _ hnd hsub hfuel
    exfalso
    exact not_nodup_of_long visiting (revs.map (fun r => r.id)) hsub
      (by simp only [List.length_map]; omega) hnd
  | succ fuel ih =>
    intro visiting rid hnc hnv hnd hsub hfuel
    have hrid : rid ∉ visiting := fun hmem =>
      hnv rid hmem Relation.ReflTransGen.refl
    rw [nestingOfRev, if_neg hrid]
    rcases hl : lookupRev revs rid with _ | rev
    · simp only [hl]
      exact ⟨[], rfl⟩
    · simp only [hl]
      rcases hcont : rev.content with code | gr
      · simp only [hcont]
        exact ⟨[], rfl⟩
      · simp only [hcont]
        refine nestingRowsOfOps_ok_of _ _ (fun op hop => ?_)
        have hstep : refRel revs rid op.transformation_id :=
          ⟨rev, gr, hl, hcont,
            List.mem_map.mpr ⟨op, hop, rfl⟩⟩
        refine ih (rid :: visiting) op.transformation_id ?_ ?_ ?_ ?_ ?_
        · rintro ⟨v, hrv, hvv⟩
          exact hnc ⟨v, Relation.ReflTransGen.head hstep hrv, hvv⟩
        · intro v hv hreach
          rcases List.mem_cons.mp hv with rfl | hv'
          · exact hnc ⟨v, Relation.ReflTransGen.refl,
              Relation.TransGen.head' hstep hreach⟩
          · exact hnv v hv' (Relation.ReflTransGen.head hstep hreach)
        · exact List.nodup_cons.mpr ⟨hrid, hnd⟩
        · intro v hv
          rcases List.mem_cons.mp hv with rfl | hv'
          · exact lookupRev_mem_ids revs v rev hl
          · exact hsub v hv'
        · simp only [List.length_cons]
          omega

/-- If recomputation starting at `rid` succeeds, then no stored workflow
reachable from `rid` lies in the ancestor chain or on a reference cycle. -/
theorem nestingOfRev_ok_no_cycle (revs : List TransformationRevision) :
    ∀ (fuel : Nat) (visiting : List Nat) (rid : Nat) (rows : List RelRow),
      nestingOfRev revs fuel visiting rid = .ok rows →
      ∀ v, Relation.ReflTransGen (refRel revs) rid v →
        IsWorkflowId revs v →
        v ∉ visiting ∧ ¬ Relation.TransGen (refRel revs) v v := by
  intro fuel
  induction fuel with
  | zero => intro visiting rid rows h; cases h
  | succ fuel ih =>
    intro visiting rid rows h v hreach hwf
    rw [nestingOfRev] at h
    by_cases hrid : rid ∈ visiting
    · rw [if_pos hrid] at h; cases h
    rw [if_neg hrid] at h
    rcases Relation.ReflTransGen.cases_head hreach with rfl | ⟨c, hstep, hcv⟩
    · -- `v = rid`; its lookup drives the evaluation into the workflow branch
      obtain ⟨rev, g, hl, hcont⟩ := hwf
      simp only [hl, hcont] at h
      refine ⟨hrid, fun htg => ?_⟩
      obtain ⟨c, hc, hcr⟩ := Relation.TransGen.head'_iff.mp htg
      obtain ⟨rev', g', hl', hcont', hmem⟩ := hc
      rw [hl] at hl'
      injection hl' with hl'
      subst hl'
      rw [hcont] at hcont'
      injection hcont' with hcont'
      subst hcont'
      obtain ⟨op, hop, hopid⟩ := List.mem_map.mp hmem
      obtain ⟨r, hr⟩ := nestingRowsOfOps_ok_child _ _ _ h op hop
      rw [hopid] at hr
      have := ih (rid :: visiting) c r hr rid hcr ⟨rev, g, hl, hcont⟩
      exact this.1 (List.mem_cons_self rid visiting)
    · -- a first step `rid → c` exists, so `rid` is a stored workflow
      obtain ⟨rev', g', hl', hcont', hmem⟩ := hstep
      simp only [hl', hcont'] at h
      obtain ⟨op, hop, hopid⟩ := List.mem_map.mp hmem
      obtain ⟨r, hr⟩ := nestingRowsOfOps_ok_child _ _ _ h op hop
      rw [hopid] at hr
      have := ih (rid :: visiting) c r hr v hcv hwf
      exact ⟨fun hv => this.1 (List.mem_cons_of_mem rid hv), this.2⟩

theorem recompute_ok_of_not_cycleReachable
    (revs : List TransformationRevision) (w : Nat)
    (hnc : ¬ CycleReachable revs w) :
    ∃ rows, recompute revs w = .ok rows := by
  obtain ⟨rows, hrows⟩ := nestingOfRev_ok_of_acyclic revs
    (revs.length + 1) [] w hnc (by simp) List.nodup_nil (by simp)
    (by simp)
  exact ⟨_, by rw [recompute, hrows]⟩

theorem recompute_error_of_cycleReachable
    (revs : List TransformationRevision) (w : Nat)
    (hc : CycleReachable revs w) :
    recompute revs w = .error .unboundedNestingError := by
  obtain ⟨v, hwv, hvv⟩ := hc
  rcases hres : nestingOfRev revs (revs.length + 1) [] w with e | rows
  · cases e
    rw [recompute, hres]
  · exfalso
    have hwf : IsWorkflowId revs v := by
      obtain ⟨c, hc', _⟩ := Relation.TransGen.head'_iff.mp hvv
      obtain ⟨rev, g, hl, hcont, _⟩ := hc'
      exact ⟨rev, g, hl, hcont⟩
    exact (nestingOfRev_ok_no_cycle revs _ [] w rows hres v hwv hwf).2 hvv

theorem not_cycleReachable_of_recompute_ok
    (revs : List TransformationRevision) (w : Nat) (rows : List NestingRow)
    (h : recompute revs w = .ok rows) : ¬ CycleReachable revs w := by
  intro hc
  rw [recompute_error_of_cycleReachable revs w hc] at h
  cases h

/-- **C6.** For every store content, including a corrupted store in which
workflow references form a cycle, nesting recomputation for a workflow
terminates: on acyclic references it returns the computed row set, and if a
cycle is reachable it fails with `UnboundedNestingError` instead of looping
forever. -/
theorem recompute_total (revs : List TransformationRevision) (w : Nat) :
    (¬ CycleReachable revs w → ∃ rows, recompute revs w = .ok rows) ∧
    (CycleReachable revs w →
      recompute revs w = .error .unboundedNestingError) :=
  ⟨recompute_ok_of_not_cycleReachable revs w,
    recompute_error_of_cycleReachable revs w⟩


theorem lookupRev_replaceRev_self (revs : List TransformationRevision)
    (rev : TransformationRevision) :
    lookupRev (replaceRev revs rev) rev.id = some rev := by
  unfold lookupRev replaceRev
  rw [List.find?_append]
  have h1 : (revs.filter (fun r => ! (r.id == rev.id))).find?
      (fun r => r.id == rev.id) = none := by
    rw [List.find?_eq_none]
    intro x hx
    have := List.of_mem_filter hx
    simpa using this
  rw [h1]
  simp

/-- **C5.** For every workflow whose stored graph is unchanged between the
two calls, running the nesting recomputation twice yields exactly the same
set of nesting rows as running it once: a second
`update_or_create_nesting` on the resulting store returns that store
unchanged. -/
theorem update_or_create_nesting_idempotent (s : Store) (w : Nat)
    (s' : Store) (h : update_or_create_nesting s w = .ok s') :
    update_or_create_nesting s' w = .ok s' := by
  unfold update_or_create_nesting at h ⊢
  rcases hres : recompute s.revisions w with e | rows
  · rw [hres] at h; cases h
  · rw [hres] at h
    injection h with h
    subst h
    have hrevs : (replaceNesting s w rows).revisions = s.revisions := rfl
    rw [hrevs, hres]
    unfold replaceNesting
    simp only [Store.mk.injEq, true_and]
    have hall : ∀ row ∈ rows, row.workflow_revision_id = w := by
      unfold recompute at hres
      rcases hn : nestingOfRev s.revisions (s.revisions.length + 1) [] w with
        e | relRows
      · rw [hn] at hres; cases hres
      · rw [hn] at hres
        injection hres with hres
        subst hres
        intro row hrow
        obtain ⟨r, _, hr⟩ := List.mem_map.mp hrow
        rw [← hr]
    have hfilters :
        ((s.nestings.filter
            (fun row => ! (row.workflow_revision_id == w)) ++ rows).filter
          (fun row => ! (row.workflow_revision_id == w))) =
          s.nestings.filter (fun row => ! (row.workflow_revision_id == w)) := by
      rw [List.filter_append]
      have h2 : rows.filter (fun row => ! (row.workflow_revision_id == w)) =
          [] := by
        rw [List.filter_eq_nil_iff]
        intro row hrow
        simp [hall row hrow]
      rw [h2, List.append_nil, List.filter_filter]
      refine List.filter_congr (fun row _ => ?_)
      cases hb : (! (row.workflow_revision_id == w)) <;> simp [hb]
    rw [hfilters]


theorem storeWrite_ok_lookup (s : Store) (r : TransformationRevision)
    (s' : Store) (h : storeWrite s r = .ok s') :
    lookupRev s'.revisions r.id = some r := by
  unfold storeWrite at h
  rcases hv : validateContent s.revisions r with e | u
  · rw [hv] at h; cases h
  · cases u
    rw [hv] at h
    rcases hc : r.content with code | g
    · simp only [hc] at h
      injection h with h
      subst h
      exact lookupRev_replaceRev_self s.revisions r
    · simp only [hc] at h
      rcases hr : recompute (replaceRev s.revisions r) r.id with e | rows
      · rw [hr] at h; cases h
      · rw [hr] at h
        injection h with h
        subst h
        exact lookupRev_replaceRev_self s.revisions r

theorem storeWrite_ne_notFound (s : Store) (r : TransformationRevision) :
    storeWrite s r ≠ .error .notFoundError := by
  unfold storeWrite validateContent
  rcases hc : r.content with code | g
  · simp
  · rcases hvg : validate s.revisions g with e | u
    · simp [hvg]
    · cases u
      rcases hr : recompute (replaceRev s.revisions r) r.id with e | rows <;>
        simp [hvg, hr]

/-- **C1.** For every workflow graph `G`, `validate(G)` succeeds if and
only if `G` has no fan-in violations (no destination connector with more
than one incoming link and no required input without a link), no cycles in
the operator-collapsed directed graph, only type-compatible links, and
every operator's `transformation_id` resolvable to an existing revision;
a workflow revision whose graph fails any of these is rejected by the
store write backing create/update, and one satisfying all of them (with
computable nesting) is accepted. -/
theorem validate_ok_iff_validGraph :
    (∀ (revs : List TransformationRevision) (g : Graph),
      validate revs g = .ok () ↔ ValidGraph revs g) ∧
    (∀ (s : Store) (sub : TransformationRevision) (g : Graph),
      sub.content = .workflow g → ¬ ValidGraph s.revisions g →
      (storeWrite s sub).isOk = false) ∧
    (∀ (s : Store) (sub : TransformationRevision) (g : Graph),
      sub.content = .workflow g → ValidGraph s.revisions g →
      ¬ CycleReachable (replaceRev s.revisions sub) sub.id →
      ∃ s', storeWrite s sub = .ok s') := by
  refine ⟨validate_ok_iff, ?_, ?_⟩
  · intro s sub g hc hnv
    have hne : validate s.revisions g ≠ .ok () := fun h =>
      hnv ((validate_ok_iff _ _).mp h)
    have herr : ∃ e, validate s.revisions g = .error e := by
      rcases h : validate s.revisions g with e | u
      · exact ⟨e, rfl⟩
      · cases u; exact absurd h hne
    obtain ⟨e, he⟩ := herr
    unfold storeWrite validateContent
    simp only [hc, he]
    rfl
  · intro s sub g hc hv hnc
    have hvok : validate s.revisions g = .ok () := (validate_ok_iff _ _).mpr hv
    obtain ⟨rows, hrows⟩ := recompute_ok_of_not_cycleReachable _ _ hnc
    refine ⟨replaceNesting
      { s with revisions := replaceRev s.revisions sub } sub.id rows, ?_⟩
    unfold storeWrite validateContent
    simp only [hc, hvok, hrows]

/-- **C2.** For every stored revision whose state is RELEASED, a write
replacing its content or metadata with `allow_overwrite_released = false`
is rejected with the immutable-revision error, whereas the identical write
with `allow_overwrite_released = true` succeeds (provided the write itself
is storable) and replaces content and metadata while the state stays
RELEASED and `released_timestamp` is unchanged. -/
theorem update_released_immutable_or_overwrite
    (s : Store) (sub existing : TransformationRevision) (now : Nat)
    (hlook : lookupRev s.revisions sub.id = some existing)
    (hex : existing.state = .RELEASED)
    (hsub : sub.state = .RELEASED)
    (hok : ∃ s', storeWrite s
      { sub with released_timestamp := existing.released_timestamp,
                 disabled_timestamp := existing.disabled_timestamp } =
        .ok s') :
    updateTransformation s sub false now =
      .error (.lifecycle .immutableRevisionError) ∧
    ∃ s' stored, updateTransformation s sub true now = .ok s' ∧
      lookupRev s'.revisions sub.id = some stored ∧
      stored.content = sub.content ∧
      stored.name = sub.name ∧
      stored.description = sub.description ∧
      stored.category = sub.category ∧
      stored.documentation = sub.documentation ∧
      stored.version_tag = sub.version_tag ∧
      stored.io_interface = sub.io_interface ∧
      stored.state = .RELEASED ∧
      stored.released_timestamp = existing.released_timestamp := by
  constructor
  · simp only [updateTransformation, hlook, hex, hsub]
    rfl
  · obtain ⟨s', hs'⟩ := hok
    rw [hsub] at hs'
    refine ⟨s',
      { sub with state := .RELEASED,
                 released_timestamp := existing.released_timestamp,
                 disabled_timestamp := existing.disabled_timestamp },
      ?_, ?_, rfl, rfl, rfl, rfl, rfl, rfl, rfl, rfl, rfl⟩
    · simp only [updateTransformation, hlook, hex, hsub, if_true]
      exact hs'
    · have := storeWrite_ok_lookup s _ s' hs'
      simpa using this

/-- **C7.** For every revision in state RELEASED, the transition to
DISABLED is always allowed and stamps `disabled_timestamp` (leaving the
other fields of the stored revision unchanged), and for every revision in
state DISABLED, no subsequent write moves it to any other state: every
update of a DISABLED revision is rejected with the invalid-transition
error. -/
theorem lifecycle_disable_and_terminal
    (s : Store) (sub existing : TransformationRevision)
    (allow : Bool) (now : Nat)
    (hlook : lookupRev s.revisions sub.id = some existing) :
    (existing.state = .RELEASED → sub.state = .DISABLED →
      ∃ s', updateTransformation s sub allow now = .ok s' ∧
        lookupRev s'.revisions sub.id =
          some { existing with state := .DISABLED,
                               disabled_timestamp := some now }) ∧
    (existing.state = .DISABLED →
      updateTransformation s sub allow now =
        .error (.lifecycle .invalidTransitionError)) := by
  constructor
  · intro hex hsub
    have hid : existing.id = sub.id := (lookupRev_spec _ _ _ hlook).2
    set disabled : TransformationRevision :=
      { existing with state := .DISABLED, disabled_timestamp := some now }
      with hdisabled
    refine ⟨{ s with revisions := replaceRev s.revisions disabled }, ?_, ?_⟩
    · simp only [updateTransformation, hlook, hex, hsub]
    · have := lookupRev_replaceRev_self s.revisions disabled
      have hdid : disabled.id = sub.id := hid
      rw [hdid] at this
      exact this
  · intro hdis
    cases hss : sub.state <;>
      simp [updateTransformation, hlook, hdis, hss]

/-- **C8.** For every stored revision, deleting it fails with the
referenced-revision error whenever `used_by` is non-empty, regardless of
`allow_overwrite_released`; and deleting it succeeds when `used_by` is
empty, removing the revision and its own nesting rows. -/
theorem delete_blocked_iff_referenced
    (s : Store) (rid : Nat) (allow : Bool)
    (rev : TransformationRevision)
    (hlook : lookupRev s.revisions rid = some rev) :
    (used_by s rid ≠ [] →
      deleteTransformation s rid allow = .error .referencedRevisionError) ∧
    (used_by s rid = [] →
      ∃ s', deleteTransformation s rid allow = .ok s' ∧
        s'.revisions = s.revisions.filter (fun r => ! (r.id == rid)) ∧
        ∀ row ∈ s'.nestings, row.workflow_revision_id ≠ rid) := by
  constructor
  · intro hne
    have hempty : (used_by s rid).isEmpty = false := by
      rcases h : used_by s rid with _ | ⟨a, l⟩
      · exact absurd h hne
      · rfl
    simp only [deleteTransformation, hlook, hempty]
    rfl
  · intro hemp
    have hempty : (used_by s rid).isEmpty = true := by
      rw [hemp]; rfl
    have hdel : deleteTransformation s rid allow =
        .ok { revisions := s.revisions.filter (fun r => ! (r.id == rid)),
              nestings := s.nestings.filter
                (fun row => ! (row.workflow_revision_id == rid)) } := by
      simp only [deleteTransformation, hlook, hempty]
      rfl
    refine ⟨_, hdel, rfl, ?_⟩
    intro row hrow hwid
    have := List.of_mem_filter hrow
    simp [hwid] at this

/-- **C10.** For every revision id not present in the store, an update
(PUT) of a transformation revision at that id does not fail with a
not-found error: it stores the submitted revision as a new entry, exactly
as if it had been created fresh. -/
theorem update_nonexistent_creates
    (s : Store) (sub : TransformationRevision) (allow : Bool) (now : Nat)
    (hlook : lookupRev s.revisions sub.id = none) :
    updateTransformation s sub allow now = createTransformation s sub ∧
    updateTransformation s sub allow now ≠ .error .notFoundError ∧
    ∀ s', createTransformation s sub = .ok s' →
      lookupRev s'.revisions sub.id = some sub := by
  refine ⟨?_, ?_, ?_⟩
  · simp only [updateTransformation, hlook]
  · simp only [updateTransformation, hlook]
    exact storeWrite_ne_notFound s sub
  · intro s' h
    exact storeWrite_ok_lookup s sub s' h


/-- **C4.** For every revision of kind Component, compile returns the
component's stored code string and its declared interface verbatim, with
no transformation applied to the stored code. -/
theorem compile_component_verbatim (s : Store)
    (rev : TransformationRevision) (code : String)
    (h : rev.content = .component code) :
    compileTransformation s rev = .ok (.leaf rev.io_interface code) := by
  unfold compileTransformation
  rw [h]

/-- **C3.** For every pair of compilations of the same stored workflow
revision — same id and io interface, graphs structurally equal ignoring
position metadata — compile produces structurally identical executable
units.  (Map/iteration order of the host language has no counterpart in
this embedding; compilation is a function of the position-erased revision
and the store, which subsumes compiling the same stored revision twice.) -/
theorem compile_deterministic_ignoring_positions (s : Store)
    (r1 r2 : TransformationRevision)
    (hid : r1.id = r2.id) (hiface : r1.io_interface = r2.io_interface)
    (hcont : stripContent r1.content = stripContent r2.content) :
    compileTransformation s r1 = compileTransformation s r2 := by
  unfold compileTransformation
  rcases h1 : r1.content with c1 | g1 <;> rcases h2 : r2.content with c2 | g2 <;>
    rw [h1, h2] at hcont <;> unfold stripContent at hcont
  · injection hcont with hcode
    rw [hiface, hcode]
  · cases hcont
  · cases hcont
  · injection hcont with hg
    rw [hiface, hid]
    show compileGraphS
        (fun tid =>
          compileRevId s.revisions (s.revisions.length + 1) [r2.id] tid)
        r2.io_interface (stripGraph g1) =
      compileGraphS
        (fun tid =>
          compileRevId s.revisions (s.revisions.length + 1) [r2.id] tid)
        r2.io_interface (stripGraph g2)
    rw [hg]


/-! ## Witnesses: the claim theorems applied at the fixtures -/
theorem validate_ok_iff_validGraph_witness :
    ValidGraph exStore.revisions exGraph2 ∧
    (storeWrite exStore exBadWf).isOk = false ∧
    (∃ s', storeWrite exStore exWorkflow2 = .ok s') := by
  refine ⟨?_, ?_, ?_⟩
  · exact (validate_ok_iff_validGraph.1 exStore.revisions exGraph2).mp
      (by decide)
  · refine validate_ok_iff_validGraph.2.1 exStore exBadWf exGraphBad rfl ?_
    intro h
    exact absurd ((fanInOkB_iff exGraphBad).mpr h.1) (by decide)
  · refine validate_ok_iff_validGraph.2.2 exStore exWorkflow2 exGraph2 rfl
      ((validate_ok_iff_validGraph.1 exStore.revisions exGraph2).mp
        (by decide)) ?_
    exact not_cycleReachable_of_recompute_ok _ 2 [⟨2, 1, [50], 1⟩]
      (by decide)

theorem update_released_immutable_or_overwrite_witness :
    updateTransformation exStoreRel exComponent2Update false 200 =
      .error (.lifecycle .immutableRevisionError) :=
  (update_released_immutable_or_overwrite exStoreRel exComponent2Update
    exComponent2 200 rfl rfl rfl ⟨_, rfl⟩).1

theorem compile_deterministic_ignoring_positions_witness :
    compileTransformation exStore exWorkflow2 =
      compileTransformation exStore exWorkflow2Moved :=
  compile_deterministic_ignoring_positions exStore exWorkflow2
    exWorkflow2Moved rfl rfl (by decide)

theorem compile_component_verbatim_witness :
    compileTransformation exStore exComponent1 =
      .ok (.leaf exComponent1.io_interface "code") :=
  compile_component_verbatim exStore exComponent1 "code" rfl

theorem update_or_create_nesting_idempotent_witness :
    update_or_create_nesting exStoreNest 2 = .ok exStoreNest :=
  update_or_create_nesting_idempotent exStore 2 exStoreNest (by decide)

theorem recompute_total_witness :
    (∃ rows, recompute exStore.revisions 2 = .ok rows) ∧
    recompute [exWfCyc] 3 = .error .unboundedNestingError := by
  constructor
  · exact (recompute_total exStore.revisions 2).1
      (not_cycleReachable_of_recompute_ok _ 2 [⟨2, 1, [50], 1⟩] (by decide))
  · refine (recompute_total [exWfCyc] 3).2 ?_
    refine ⟨3, Relation.ReflTransGen.refl, Relation.TransGen.single ?_⟩
    exact ⟨exWfCyc, exGraphCyc, rfl, rfl, by decide⟩

theorem lifecycle_disable_and_terminal_witness :
    (∃ s', updateTransformation exStoreRel exDeprecateSub true 200 =
        .ok s' ∧
      lookupRev s'.revisions exDeprecateSub.id =
        some { exComponent2 with state := .DISABLED,
                                 disabled_timestamp := some 200 }) ∧
    updateTransformation exStoreDis exComponent2Update false 300 =
      .error (.lifecycle .invalidTransitionError) :=
  ⟨(lifecycle_disable_and_terminal exStoreRel exDeprecateSub exComponent2
      true 200 rfl).1 rfl rfl,
   (lifecycle_disable_and_terminal exStoreDis exComponent2Update
      exComponentDisabled false 300 rfl).2 rfl⟩

theorem delete_blocked_iff_referenced_witness :
    (deleteTransformation exStoreNest 1 true =
      .error .referencedRevisionError) ∧
    (∃ s', deleteTransformation exStoreNest 2 false = .ok s' ∧
      s'.revisions = exStoreNest.revisions.filter (fun r => ! (r.id == 2)) ∧
      ∀ row ∈ s'.nestings, row.workflow_revision_id ≠ 2) :=
  ⟨(delete_blocked_iff_referenced exStoreNest 1 true exComponent1 rfl).1
      (by decide),
   (delete_blocked_iff_referenced exStoreNest 2 false exWorkflow2 rfl).2 rfl⟩

theorem update_nonexistent_creates_witness :
    updateTransformation exStoreEmpty exComponent1 false 0 =
      createTransformation exStoreEmpty exComponent1 ∧
    updateTransformation exStoreEmpty exComponent1 false 0 ≠
      .error .notFoundError :=
  ⟨(update_nonexistent_creates exStoreEmpty exComponent1 false 0 rfl).1,
   (update_nonexistent_creates exStoreEmpty exComponent1 false 0 rfl).2.1⟩

end HetidaSpec

